import Mathlib

/-!
Shallow embedding of the Departures_Board transit-dashboard core
(`app.py`, `train_departures.py`, `weather_forecast.py`) and proofs about
the departure-normalization, status-severity and forecast-segmentation
logic.  Machine times are modelled as rationals (seconds within the day),
Python strings as Lean `String`s, and Python `None` as `Option`.
-/

namespace DeparturesBoard

/-! ### Python string primitives -/

/-- Python `str.lower()` restricted to ASCII case folding. -/
def pyLower (s : String) : String :=
  ⟨s.data.map Char.toLower⟩

/-- ASCII whitespace, as stripped by Python `str.strip()`. -/
def pyIsSpace (c : Char) : Bool :=
  c.toNat = 32 || c.toNat = 9 || c.toNat = 10 || c.toNat = 13 || c.toNat = 11 || c.toNat = 12

/-- ASCII decimal digit. -/
def isDig (c : Char) : Bool :=
  48 ≤ c.toNat && c.toNat ≤ 57

/-- Python `str.strip()` on a character list: drop whitespace at both ends. -/
def pyStripList (l : List Char) : List Char :=
  ((l.dropWhile pyIsSpace).reverse.dropWhile pyIsSpace).reverse

/-- Python `str.strip()`. -/
def pyStrip (s : String) : String :=
  ⟨pyStripList s.data⟩

/-- Substring test on character lists: does `needle` occur contiguously in `hay`?
Mirrors Python's `needle in hay`. -/
def listContainsSub (needle : List Char) : List Char → Bool
  | [] => needle.isEmpty
  | c :: t => needle.isPrefixOf (c :: t) || listContainsSub needle t

/-- Python `needle in hay` for strings. -/
def strContains (hay needle : String) : Bool :=
  listContainsSub needle.data hay.data

/-- Python `a or b` for strings (`a` falsy iff empty). -/
def pyOrStr (a b : String) : String :=
  if a = "" then b else a

/-! ### Line-status severity (`app.py`, `detect_severity` / `_normalize_tubes`) -/

/-- `detect_severity` from `app.py`: keyword scan over one lowered text. -/
def detect_severity (status_text : String) : String :=
  let s := pyLower status_text
  if strContains s "major" || strContains s "severe" || strContains s "significant" then
    "major"
  else if strContains s "minor" || strContains s "part" || strContains s "planned" ||
      strContains s "closure" || strContains s "reduced" then
    "warn"
  else
    "good"

/-- The severity assigned to a normalized tube entry:
`app.py` line 90 computes `detect_severity(status or reason)`. -/
def severityOfEntry (status reason : String) : String :=
  detect_severity (pyOrStr status reason)

/-- Modelled from the spec's words for claim C1: severity computed from
keywords over BOTH the status text and the reason text, case-insensitively. -/
def claimedSeverityBoth (status reason : String) : String :=
  let s := pyLower status
  let r := pyLower reason
  if strContains s "major" || strContains r "major" ||
      strContains s "severe" || strContains r "severe" ||
      strContains s "significant" || strContains r "significant" then
    "major"
  else if strContains s "minor" || strContains r "minor" ||
      strContains s "part" || strContains r "part" ||
      strContains s "planned" || strContains r "planned" ||
      strContains s "closure" || strContains r "closure" ||
      strContains s "reduced" || strContains r "reduced" then
    "warn"
  else
    "good"

/-! ### Theorems for C1 -/

/-- C1 (counterexample): with a non-empty status that carries no keyword and a
reason that says "Major delays", the code ignores the reason and reports
"good", while the claim's both-texts rule demands "major". -/
theorem c1_counterexample :
    severityOfEntry "Good Service" "Major delays on the whole line" = "good" ∧
    claimedSeverityBoth "Good Service" "Major delays on the whole line" = "major" ∧
    severityOfEntry "Good Service" "Major delays on the whole line" ≠
      claimedSeverityBoth "Good Service" "Major delays on the whole line" := by
  refine ⟨by decide, by decide, by decide⟩

/-- C1 (amended): the severity tier is computed case-insensitively from
keywords over the status text when it is non-empty, and over the reason text
only when the status text is empty. -/
theorem c1_severity_uses_status_else_reason (status reason : String) :
    severityOfEntry status reason =
      claimedSeverityBoth (if status = "" then reason else status) "" := by
  have hempty : ∀ kw : String, strContains (pyLower "") kw = strContains "" kw := by
    intro kw; rfl
  unfold severityOfEntry detect_severity claimedSeverityBoth pyOrStr
  by_cases h : status = "" <;> simp only [h, if_true, if_false, reduceIte] <;>
    simp [strContains, pyLower, listContainsSub, List.isPrefixOf]

/-! ### Python `int()` on decimal strings and `str()` on integers -/

/-- Numeric value of an ASCII digit character. -/
def digitVal (c : Char) : Nat := c.toNat - 48

/-- Value of a digit run, most significant first. -/
def decVal (l : List Char) : Nat :=
  l.foldl (fun a c => a * 10 + digitVal c) 0

/-- Digit run acceptor for Python `int()`: after the first digit, single
underscores are allowed between digits. -/
def pyDigitsAux (acc : Nat) : List Char → Option Nat
  | [] => some acc
  | c :: rest =>
    if isDig c then pyDigitsAux (acc * 10 + digitVal c) rest
    else if c = '_' then
      match rest with
      | [] => none
      | d :: rest2 => if isDig d then pyDigitsAux (acc * 10 + digitVal d) rest2 else none
    else none

/-- A Python `int()` digit run must start with a digit. -/
def pyDigits : List Char → Option Nat
  | [] => none
  | c :: rest => if isDig c then pyDigitsAux (digitVal c) rest else none

/-- Sign handling of Python `int(s)` after stripping: optional single sign,
then a digit run. -/
def pyIntCore : List Char → Option Int
  | [] => none
  | c :: rest =>
    if c = '+' then (pyDigits rest).map Int.ofNat
    else if c = '-' then (pyDigits rest).map (fun n => -(Int.ofNat n))
    else (pyDigits (c :: rest)).map Int.ofNat

/-- Python `int(s)` for a decimal string: strip whitespace, optional single
sign, digit run; `none` models `ValueError`. -/
def pyIntParse (s : String) : Option Int :=
  pyIntCore (pyStripList s.data)

/-- Decimal digit characters of `n`, most significant first; `fuel` bounds the
recursion and any `fuel` with `n < 10 ^ fuel` is enough. -/
def natToDecAux : Nat → Nat → List Char
  | 0, _ => []
  | fuel + 1, n =>
    if n < 10 then [Nat.digitChar n]
    else natToDecAux fuel (n / 10) ++ [Nat.digitChar (n % 10)]

/-- Python `str(i)` for an integer. -/
def intStr (i : Int) : String :=
  match i with
  | Int.ofNat n => ⟨natToDecAux (n + 1) n⟩
  | Int.negSucc m => ⟨'-' :: natToDecAux (m + 2) (m + 1)⟩

/-! ### Round-trip lemmas: `pyIntParse (intStr n) = some n` -/

lemma pyDigitsAux_all_digits (l : List Char) :
    ∀ acc, (∀ c ∈ l, isDig c = true) →
      pyDigitsAux acc l = some (l.foldl (fun a c => a * 10 + digitVal c) acc) := by
  induction l with
  | nil => intro acc _; rfl
  | cons c t ih =>
    intro acc h
    have hc : isDig c = true := h c (List.mem_cons_self c t)
    have step : pyDigitsAux acc (c :: t) = pyDigitsAux (acc * 10 + digitVal c) t := by
      rw [pyDigitsAux.eq_def]; simp [hc]
    rw [step, List.foldl_cons]
    exact ih _ (fun d hd => h d (List.mem_cons_of_mem c hd))

lemma pyDigits_all_digits (c : Char) (rest : List Char)
    (h : ∀ d ∈ c :: rest, isDig d = true) :
    pyDigits (c :: rest) = some (decVal (c :: rest)) := by
  have hc : isDig c = true := h c (List.mem_cons_self c rest)
  simp only [pyDigits, hc, if_true, decVal, List.foldl_cons]
  have : digitVal c = 0 * 10 + digitVal c := by ring
  rw [← this]
  exact pyDigitsAux_all_digits rest (digitVal c) (fun d hd => h d (List.mem_cons_of_mem c hd))

lemma digitChar_isDig {d : Nat} (h : d < 10) : isDig (Nat.digitChar d) = true := by
  interval_cases d <;> decide

lemma digitVal_digitChar {d : Nat} (h : d < 10) : digitVal (Nat.digitChar d) = d := by
  interval_cases d <;> decide

lemma natToDecAux_digits :
    ∀ fuel n, n < 10 ^ fuel → ∀ c ∈ natToDecAux fuel n, isDig c = true := by
  intro fuel
  induction fuel with
  | zero => intro n _ c hc; simp [natToDecAux] at hc
  | succ f ih =>
    intro n hn c hc
    by_cases h10 : n < 10
    · simp only [natToDecAux, if_pos h10, List.mem_singleton] at hc
      subst hc; exact digitChar_isDig h10
    · simp only [natToDecAux, if_neg h10, List.mem_append, List.mem_singleton] at hc
      rcases hc with hc | hc
      · exact ih (n / 10) (by
          rw [Nat.div_lt_iff_lt_mul (by norm_num)]
          calc n < 10 ^ (f + 1) := hn
            _ = 10 ^ f * 10 := by rw [pow_succ]) c hc
      · subst hc; exact digitChar_isDig (Nat.mod_lt _ (by norm_num))

lemma natToDecAux_val :
    ∀ fuel n, n < 10 ^ fuel → decVal (natToDecAux fuel n) = n := by
  intro fuel
  induction fuel with
  | zero => intro n hn; interval_cases n; rfl
  | succ f ih =>
    intro n hn
    by_cases h10 : n < 10
    · simp only [natToDecAux, if_pos h10, decVal, List.foldl_cons, List.foldl_nil]
      rw [digitVal_digitChar h10]
      omega
    · have hdiv : n / 10 < 10 ^ f := by
        rw [Nat.div_lt_iff_lt_mul (by norm_num)]
        calc n < 10 ^ (f + 1) := hn
          _ = 10 ^ f * 10 := by rw [pow_succ]
      simp only [natToDecAux, if_neg h10, decVal, List.foldl_append, List.foldl_cons,
        List.foldl_nil]
      have hmod : n % 10 < 10 := Nat.mod_lt _ (by norm_num)
      have := ih (n / 10) hdiv
      simp only [decVal] at this
      rw [this, digitVal_digitChar hmod]
      omega

lemma natToDecAux_ne_nil (fuel n : Nat) (h : 0 < fuel) : natToDecAux fuel n ≠ [] := by
  cases fuel with
  | zero => omega
  | succ f =>
    by_cases h10 : n < 10
    · simp [natToDecAux, h10]
    · simp [natToDecAux, h10]

lemma isDig_not_space {c : Char} (h : isDig c = true) : pyIsSpace c = false := by
  simp only [isDig, Bool.and_eq_true, decide_eq_true_eq] at h
  simp only [pyIsSpace, Bool.or_eq_false_iff, decide_eq_false_iff_not]
  omega

lemma dropWhile_space_of_digits (l : List Char) (h : ∀ c ∈ l, isDig c = true) :
    l.dropWhile pyIsSpace = l := by
  cases l with
  | nil => rfl
  | cons c t =>
    have : pyIsSpace c = false := isDig_not_space (h c (List.mem_cons_self c t))
    simp [List.dropWhile_cons, this]

lemma pyStripList_digits (l : List Char) (h : ∀ c ∈ l, isDig c = true) :
    pyStripList l = l := by
  unfold pyStripList
  rw [dropWhile_space_of_digits l h,
    dropWhile_space_of_digits l.reverse (fun c hc => h c (List.mem_reverse.mp hc)),
    List.reverse_reverse]

lemma nat_lt_ten_pow_succ (n : Nat) : n < 10 ^ (n + 1) := by
  calc n < 2 ^ n := Nat.lt_two_pow n
    _ ≤ 10 ^ n := Nat.pow_le_pow_left (by norm_num) n
    _ < 10 ^ (n + 1) := Nat.pow_lt_pow_right (by norm_num) (Nat.lt_succ_self n)

lemma pyIntParse_intStr_ofNat (n : Nat) : pyIntParse (intStr (Int.ofNat n)) = some n := by
  have hlt := nat_lt_ten_pow_succ n
  have hd := natToDecAux_digits (n + 1) n hlt
  have hne := natToDecAux_ne_nil (n + 1) n (Nat.succ_pos n)
  obtain ⟨c, rest, hl⟩ := List.exists_cons_of_ne_nil hne
  have hdata : (intStr (Int.ofNat n)).data = natToDecAux (n + 1) n := rfl
  unfold pyIntParse
  rw [hdata, pyStripList_digits _ hd, hl, pyIntCore.eq_def]
  have hc : isDig c = true := hd c (by rw [hl]; exact List.mem_cons_self c rest)
  have hplus : ¬ c = '+' := by
    intro hcc; rw [hcc] at hc; simp [isDig] at hc
  have hminus : ¬ c = '-' := by
    intro hcc; rw [hcc] at hc; simp [isDig] at hc
  simp only [if_neg hplus, if_neg hminus]
  rw [pyDigits_all_digits c rest (by rw [← hl]; exact hd)]
  rw [← hl, natToDecAux_val (n + 1) n hlt]
  rfl

lemma intStr_ofNat_ne_empty (n : Nat) : intStr (Int.ofNat n) ≠ "" := by
  intro h
  have : (intStr (Int.ofNat n)).data = [] := by rw [h]
  exact natToDecAux_ne_nil (n + 1) n (Nat.succ_pos n) this

lemma intStr_ofNat_ne_Due (n : Nat) : intStr (Int.ofNat n) ≠ "Due" := by
  intro h
  have hdata : natToDecAux (n + 1) n = ['D', 'u', 'e'] := by
    have : (intStr (Int.ofNat n)).data = "Due".data := by rw [h]
    exact this
  have := natToDecAux_digits (n + 1) n (nat_lt_ten_pow_succ n) 'D'
    (by rw [hdata]; exact List.mem_cons_self _ _)
  simp [isDig] at this

/-! ### `"HH:MM"` parsing (`datetime.strptime(use_time, "%H:%M")`) -/

/-- Split a character list at every colon (Python-style `re` split for the
`"%H:%M"` format). -/
def splitOnColon : List Char → List (List Char)
  | [] => [[]]
  | c :: t =>
    if c = ':' then [] :: splitOnColon t
    else
      match splitOnColon t with
      | [] => [[c]]
      | h :: rest => (c :: h) :: rest

/-- A `%H` / `%M` field: one or two ASCII digits. -/
def hmNum (l : List Char) : Option Nat :=
  if l ≠ [] ∧ l.length ≤ 2 ∧ l.all isDig then some (decVal l) else none

/-- `datetime.strptime(s, "%H:%M")`, reduced to the hour/minute pair;
`none` models the `ValueError` caught by the surrounding `except`. -/
def parseHM (s : String) : Option (Nat × Nat) :=
  match splitOnColon s.data with
  | [hs, ms] =>
    match hmNum hs, hmNum ms with
    | some h, some m => if h ≤ 23 ∧ m ≤ 59 then some (h, m) else none
    | _, _ => none
  | _ => none

/-! ### `_calculate_due_in` (`train_departures.py` lines 129-166) -/

/-- `etd.strip().lower()` (with `etd or ""` folded in, `None` ≡ `""`). -/
def etdClean (etd : String) : String := pyLower (pyStrip etd)

/-- Reference-time choice of `_calculate_due_in` (lines 134-144): `none` for
the cancelled / no-report early return, otherwise the chosen `use_time`. -/
def codeRefChoice (std etd : String) : Option String :=
  if etdClean etd = "cancelled" ∨ etdClean etd = "no report" then none
  else if (¬ (etdClean etd = "on time" ∨ etdClean etd = "ontime" ∨ etdClean etd = "due" ∨
      etdClean etd = "" ∨ etdClean etd = "delayed")) ∧ strContains (etdClean etd) ":" = true then
    some etd
  else some std

/-- Modelled from the spec's words for claim C3: same precedence, but with the
sentinel list exactly as the claim states it (no `"ontime"` entry). -/
def specRefChoice (std etd : String) : Option String :=
  if etdClean etd = "cancelled" ∨ etdClean etd = "no report" then none
  else if (¬ (etdClean etd = "on time" ∨ etdClean etd = "due" ∨ etdClean etd = "delayed" ∨
      etdClean etd = "")) ∧ strContains (etdClean etd) ":" = true then
    some etd
  else some std

/-- Minute delta of `_calculate_due_in` (lines 149-157): the parsed `"HH:MM"`
is placed on the current date (seconds within the day), rolled forward one
day when more than 300 seconds in the past, then floor-divided by 60
(Python `//`). `now` is the current instant in seconds since today's
midnight. -/
def dueDiff (now : Int) (h m : Nat) : Int :=
  if (h * 3600 + m * 60 : Int) - now < -300 then
    Int.fdiv ((h * 3600 + m * 60 : Int) + 86400 - now) 60
  else
    Int.fdiv ((h * 3600 + m * 60 : Int) - now) 60

/-- `_calculate_due_in(std, etd)` at current instant `now`. -/
def calculate_due_in (now : Int) (std etd : String) : String :=
  match codeRefChoice std etd with
  | none => ""
  | some use_time =>
    if use_time = "" then ""
    else
      match parseHM use_time with
      | none => ""
      | some (h, m) =>
        if dueDiff now h m ≤ 1 then "Due" else intStr (dueDiff now h m)

/-- `due_in_mins` population in `get_train_departures` (lines 186-192):
`None` for empty or `"Due"` text, else `int(due_in)` with `ValueError → None`. -/
def dueInMins (due_in : String) : Option Int :=
  if due_in = "" ∨ due_in = "Due" then none else pyIntParse due_in

/-! ### Theorems for C2, C3, C4 and C10 -/

/-- C2: when the parsed reference instant is more than 300 seconds earlier
than now, one calendar day (86400 s) is added before the minute delta is
taken; and the spec's example "23:58" seen at 00:05 produces the positive
due-in "1433" rather than a large negative count. -/
theorem c2_midnight_rollover :
    (∀ (now : Int) (h m : Nat), (h * 3600 + m * 60 : Int) - now < -300 →
      dueDiff now h m = Int.fdiv ((h * 3600 + m * 60 : Int) + 86400 - now) 60) ∧
    calculate_due_in 300 "23:58" "On time" = "1433" := by
  constructor
  · intro now h m hlt
    rw [dueDiff, if_pos hlt]
  · decide

theorem c2_midnight_rollover_witness :
    (((0 : Nat) * 3600 + (5 : Nat) * 60 : Int) - 86280 < -300) ∧ dueDiff 86280 0 5 = 7 := by
  refine ⟨by norm_num, ?_⟩
  rw [c2_midnight_rollover.1 86280 0 5 (by norm_num)]
  decide

/-- C3: the reference-time precedence of the code coincides with the claim's
description (cancelled/no-report → empty result; else expected time when it is
a non-sentinel text containing a colon; else scheduled time), and a cancelled
or no-report expected text yields an empty due-in for every scheduled time. -/
theorem c3_reference_time_precedence (std etd : String) :
    codeRefChoice std etd = specRefChoice std etd ∧
    (etdClean etd = "cancelled" ∨ etdClean etd = "no report" →
      ∀ now : Int, calculate_due_in now std etd = "") := by
  constructor
  · by_cases hcan : etdClean etd = "cancelled" ∨ etdClean etd = "no report"
    · rw [codeRefChoice, specRefChoice, if_pos hcan, if_pos hcan]
    · rw [codeRefChoice, specRefChoice, if_neg hcan, if_neg hcan]
      by_cases hot : etdClean etd = "ontime"
      · have hcolon : strContains (etdClean etd) ":" = false := by rw [hot]; decide
        rw [if_neg (by simp [hcolon]), if_neg (by simp [hcolon])]
      · have hiff :
            ((¬ (etdClean etd = "on time" ∨ etdClean etd = "ontime" ∨ etdClean etd = "due" ∨
                etdClean etd = "" ∨ etdClean etd = "delayed")) ∧
              strContains (etdClean etd) ":" = true) ↔
            ((¬ (etdClean etd = "on time" ∨ etdClean etd = "due" ∨ etdClean etd = "delayed" ∨
                etdClean etd = "")) ∧ strContains (etdClean etd) ":" = true) := by
          constructor
          · rintro ⟨hs, hc⟩
            exact ⟨fun hmem => hs (by tauto), hc⟩
          · rintro ⟨hs, hc⟩
            refine ⟨fun hmem => ?_, hc⟩
            rcases hmem with h1 | h1 | h1 | h1 | h1
            · exact hs (Or.inl h1)
            · exact hot h1
            · exact hs (Or.inr (Or.inl h1))
            · exact hs (Or.inr (Or.inr (Or.inr h1)))
            · exact hs (Or.inr (Or.inr (Or.inl h1)))
        by_cases hcond :
            (¬ (etdClean etd = "on time" ∨ etdClean etd = "ontime" ∨ etdClean etd = "due" ∨
              etdClean etd = "" ∨ etdClean etd = "delayed")) ∧
              strContains (etdClean etd) ":" = true
        · rw [if_pos hcond, if_pos (hiff.mp hcond)]
        · rw [if_neg hcond, if_neg (fun hb => hcond (hiff.mpr hb))]
  · intro hcan now
    rw [calculate_due_in, codeRefChoice, if_pos hcan]

theorem c3_reference_time_precedence_witness :
    (etdClean "Cancelled" = "cancelled" ∨ etdClean "Cancelled" = "no report") ∧
    calculate_due_in 0 "09:15" "Cancelled" = "" := by
  refine ⟨Or.inl (by decide), ?_⟩
  exact (c3_reference_time_precedence "09:15" "Cancelled").2 (Or.inl (by decide)) 0

/-- C4: once the chosen reference time parses, a whole-minute delta of 0 or 1
renders exactly "Due", and a delta of at least 2 renders the decimal string of
the delta, with the numeric due-in field populated with that integer. -/
theorem c4_due_text_and_minutes (now : Int) (std etd s : String) (h m : Nat)
    (href : codeRefChoice std etd = some s) (hparse : parseHM s = some (h, m)) :
    (dueDiff now h m = 0 ∨ dueDiff now h m = 1 → calculate_due_in now std etd = "Due") ∧
    (2 ≤ dueDiff now h m →
      calculate_due_in now std etd = intStr (dueDiff now h m) ∧
      dueInMins (calculate_due_in now std etd) = some (dueDiff now h m)) := by
  have hs_ne : ¬ s = "" := by
    intro h0
    rw [h0] at hparse
    exact Option.noConfusion hparse
  have hbase : calculate_due_in now std etd =
      (if dueDiff now h m ≤ 1 then "Due" else intStr (dueDiff now h m)) := by
    rw [calculate_due_in, href]
    simp only [if_neg hs_ne, hparse]
  constructor
  · intro hd
    rw [hbase, if_pos (by rcases hd with hd | hd <;> omega)]
  · intro hd
    have hne : ¬ dueDiff now h m ≤ 1 := by omega
    obtain ⟨k, hk⟩ := Int.eq_ofNat_of_zero_le (show (0 : Int) ≤ dueDiff now h m by omega)
    constructor
    · rw [hbase, if_neg hne]
    · rw [hbase, if_neg hne, dueInMins,
        if_neg (by rw [hk]; exact not_or_intro (intStr_ofNat_ne_empty k) (intStr_ofNat_ne_Due k)),
        hk]
      exact pyIntParse_intStr_ofNat k

theorem c4_due_text_and_minutes_witness :
    calculate_due_in 0 "00:05" "" = intStr (dueDiff 0 0 5) ∧
    dueInMins (calculate_due_in 0 "00:05" "") = some (dueDiff 0 0 5) :=
  (c4_due_text_and_minutes 0 "00:05" "" "00:05" 0 5 (by decide) (by decide)).2 (by decide)

/-- C10: when the reference instant is in the past by at most 5 minutes the
rollover does not fire, the minute delta is at most 0, and a record whose
reference time just passed is still rendered "Due". -/
theorem c10_just_past_still_due (now : Int) (h m : Nat)
    (h1 : -300 ≤ (h * 3600 + m * 60 : Int) - now) (h2 : (h * 3600 + m * 60 : Int) - now ≤ 0) :
    dueDiff now h m ≤ 0 ∧
    (∀ std etd s, codeRefChoice std etd = some s → parseHM s = some (h, m) →
      calculate_due_in now std etd = "Due") := by
  have hnr : ¬ ((h * 3600 + m * 60 : Int) - now < -300) := not_lt.mpr h1
  have hfloor : dueDiff now h m ≤ 0 := by
    rw [dueDiff, if_neg hnr, Int.fdiv_eq_ediv _ (by norm_num : (0 : Int) ≤ 60)]
    calc ((h * 3600 + m * 60 : Int) - now) / 60 ≤ 0 / 60 :=
        Int.ediv_le_ediv (by norm_num) h2
      _ = 0 := Int.zero_ediv 60
  refine ⟨hfloor, ?_⟩
  intro std etd s href hparse
  have hs_ne : ¬ s = "" := by
    intro h0
    rw [h0] at hparse
    exact Option.noConfusion hparse
  rw [calculate_due_in, href]
  simp only [if_neg hs_ne, hparse]
  rw [if_pos (by omega)]

theorem c10_just_past_still_due_witness :
    dueDiff 100 0 0 ≤ 0 ∧ calculate_due_in 100 "00:00" "" = "Due" := by
  have H := c10_just_past_still_due 100 0 0 (by norm_num) (by norm_num)
  exact ⟨H.1, H.2 "00:00" "" "00:00" (by decide) (by decide)⟩

/-! ### Platform inference (`train_departures.py` lines 168-175, 196-203) -/

/-- The `likely_platform` table, in the literal's insertion order. -/
def likely_platform : List (String × String) :=
  [("Sutton", "4"), ("Sutton (London)", "4"), ("Orpington", "3"),
   ("London Victoria", "2"), ("St Albans", "1"), ("St Albans City", "1")]

/-- `likely_platform.get(destination)`: exact-key lookup. -/
def platformExact (destination : String) : Option String :=
  (likely_platform.find? (fun kv => kv.1 == destination)).map Prod.snd

/-- `next((p for k, p in likely_platform.items() if destination.startswith(k)), None)`:
first table entry whose key is a prefix of the destination. -/
def platformStartsWith (destination : String) : Option String :=
  (likely_platform.find? (fun kv => kv.1.data.isPrefixOf destination.data)).map Prod.snd

/-- Python `a or b` where `a` is an optional string (`None` and `""` falsy). -/
def optOrStr (a : Option String) (b : String) : String :=
  match a with
  | some v => if v = "" then b else v
  | none => b

/-- Platform assignment of `get_train_departures` (lines 196-203), including
the `or "-"` that maps a falsy platform to the sentinel first. -/
def assignPlatform (platform destination : String) : String :=
  if pyOrStr platform "-" = "-" then
    optOrStr (platformExact destination) ((platformStartsWith destination).getD "-")
  else pyOrStr platform "-"

lemma platformExact_ne_empty {d q : String} (h : platformExact d = some q) : q ≠ "" := by
  unfold platformExact at h
  obtain ⟨kv, hfind, hsnd⟩ := Option.map_eq_some'.mp h
  have hmem := List.mem_of_find?_eq_some hfind
  simp only [likely_platform, List.mem_cons, List.not_mem_nil, or_false] at hmem
  rcases hmem with rfl | rfl | rfl | rfl | rfl | rfl <;> (rw [← hsnd]; decide)

/-- C5: a "-" platform is inferred by exact destination lookup, then by the
first entry whose key is a prefix of the destination, else stays "-"; a
non-sentinel (non-empty) platform is kept unchanged. -/
theorem c5_platform_inference (p d : String) :
    (p = "-" →
      ((∃ q, platformExact d = some q ∧ assignPlatform p d = q) ∨
        (platformExact d = none ∧
          ((∃ q, platformStartsWith d = some q ∧ assignPlatform p d = q) ∨
            (platformStartsWith d = none ∧ assignPlatform p d = "-"))))) ∧
    (p ≠ "-" → p ≠ "" → assignPlatform p d = p) := by
  constructor
  · intro hp
    subst hp
    have hcond : pyOrStr "-" "-" = "-" := rfl
    rw [assignPlatform, if_pos hcond]
    cases hexact : platformExact d with
    | some q =>
      left
      exact ⟨q, rfl, if_neg (platformExact_ne_empty hexact)⟩
    | none =>
      right
      refine ⟨rfl, ?_⟩
      cases hpre : platformStartsWith d with
      | some q => exact Or.inl ⟨q, rfl, rfl⟩
      | none => exact Or.inr ⟨rfl, rfl⟩
  · intro hp hp'
    have hpo : pyOrStr p "-" = p := if_neg hp'
    rw [assignPlatform, hpo, if_neg hp]

theorem c5_platform_inference_witness :
    assignPlatform "-" "Sutton" = "4" ∧ assignPlatform "5" "Sutton" = "5" := by
  constructor
  · rcases (c5_platform_inference "-" "Sutton").1 rfl with ⟨q, hq, hr⟩ | ⟨hn, _⟩
    · rw [show platformExact "Sutton" = some "4" from by decide] at hq
      rw [hr, ← Option.some.inj hq]
    · exact absurd hn (by decide)
  · exact (c5_platform_inference "5" "Sutton").2 (by decide) (by decide)

/-! ### Grouping and platform-sorted output (`get_train_departures`) -/

/-- A raw service record as extracted by `get_departures`. -/
structure RawRec where
  std : String
  etd : String
  platform : String
  destination : String
deriving DecidableEq

/-- A normalized departure record after `get_train_departures`'s loop body. -/
structure NormRec where
  std : String
  etd : String
  platform : String
  destination : String
  due_in_text : String
  due_in_mins : Option Int
deriving DecidableEq

/-- One iteration of the `for t in raw` loop (lines 180-206): derived due-in
fields and the (possibly inferred) platform. -/
def normalizeRec (now : Int) (r : RawRec) : NormRec :=
  { std := r.std
    etd := r.etd
    platform := assignPlatform r.platform r.destination
    destination := r.destination
    due_in_text := calculate_due_in now r.std r.etd
    due_in_mins := dueInMins (calculate_due_in now r.std r.etd) }

/-- `grouped[platform].append(t)` for a `defaultdict(list)`: append to the
bucket of an existing key, or open a new bucket at the end. -/
def addToGroup : List (String × List NormRec) → NormRec → List (String × List NormRec)
  | [], r => [(r.platform, [r])]
  | (k, xs) :: rest, r =>
    if k = r.platform then (k, xs ++ [r]) :: rest
    else (k, xs) :: addToGroup rest r

/-- The full grouping loop. -/
def groupByPlatform (l : List NormRec) : List (String × List NormRec) :=
  l.foldl addToGroup []

/-- `_sort_key` (lines 208-213) as a comparison: keys parsing as integers sort
by `(0, int(k))`, others by `(1, k or "")` (for a string key, `k or ""` is
`k` itself when non-empty and `""` otherwise, i.e. always `k`). -/
def platLEb (a b : String) : Bool :=
  match pyIntParse a, pyIntParse b with
  | some i, some j => decide (i ≤ j)
  | some _, none => true
  | none, some _ => false
  | none, none => decide (pyOrStr a "" ≤ pyOrStr b "")

/-- The platform-key order as a relation. -/
def platKeyLE (a b : String) : Prop := platLEb a b = true

instance platKeyLE.decRel : DecidableRel platKeyLE :=
  fun a b => inferInstanceAs (Decidable (platLEb a b = true))

/-- The pair order used to sort `grouped.items()`. -/
def pairPlatLE (p q : String × List NormRec) : Prop := platKeyLE p.1 q.1

instance pairPlatLE.decRel : DecidableRel pairPlatLE :=
  fun p q => inferInstanceAs (Decidable (platLEb p.1 q.1 = true))

lemma pyOrStr_empty_right (a : String) : pyOrStr a "" = a := by
  unfold pyOrStr
  by_cases h : a = ""
  · rw [if_pos h, h]
  · rw [if_neg h]

lemma platLEb_total (a b : String) : platLEb a b = true ∨ platLEb b a = true := by
  rw [platLEb.eq_def, platLEb.eq_def]
  cases hpa : pyIntParse a <;> cases hpb : pyIntParse b <;>
    simp only [decide_eq_true_eq]
  · exact le_total _ _
  · right; trivial
  · left; trivial
  · exact le_total _ _

lemma platLEb_trans (a b c : String) (h1 : platLEb a b = true) (h2 : platLEb b c = true) :
    platLEb a c = true := by
  rw [platLEb.eq_def] at h1 h2 ⊢
  cases hpa : pyIntParse a <;> cases hpb : pyIntParse b <;> cases hpc : pyIntParse c <;>
    rw [hpa, hpb] at h1 <;> rw [hpb, hpc] at h2 <;>
    first
      | exact Bool.noConfusion h1
      | exact Bool.noConfusion h2
      | (simp only [decide_eq_true_eq] at h1 h2 ⊢
         first
           | trivial
           | exact le_trans h1 h2)

instance pairPlatLE.isTotal : IsTotal (String × List NormRec) pairPlatLE :=
  ⟨fun p q => platLEb_total p.1 q.1⟩

instance pairPlatLE.isTrans : IsTrans (String × List NormRec) pairPlatLE :=
  ⟨fun p q r => platLEb_trans p.1 q.1 r.1⟩

/-- `dict(sorted(grouped.items(), key=_sort_key))`: a stable sort of the
buckets by platform key. -/
def sortPlatforms (g : List (String × List NormRec)) : List (String × List NormRec) :=
  List.insertionSort pairPlatLE g

/-- `get_train_departures` on already-extracted raw records. -/
def get_train_departures (now : Int) (recs : List RawRec) : List (String × List NormRec) :=
  sortPlatforms (groupByPlatform (recs.map (normalizeRec now)))

/-! ### Bucket lemmas for the grouping loop -/

/-- The bucket of key `k` in the grouped association list. -/
def bucket (g : List (String × List NormRec)) (k : String) : List NormRec :=
  match g.find? (fun kv => kv.1 == k) with
  | some kv => kv.2
  | none => []

lemma bucket_cons_pos {k : String} (kv : String × List NormRec)
    (rest : List (String × List NormRec)) (h : kv.1 = k) :
    bucket (kv :: rest) k = kv.2 := by
  unfold bucket
  rw [List.find?_cons_of_pos _ (by simp [h])]

lemma bucket_cons_neg {k : String} (kv : String × List NormRec)
    (rest : List (String × List NormRec)) (h : ¬ kv.1 = k) :
    bucket (kv :: rest) k = bucket rest k := by
  unfold bucket
  rw [List.find?_cons_of_neg _ (by simp [h])]

lemma bucket_addToGroup_same (g : List (String × List NormRec)) (r : NormRec) :
    bucket (addToGroup g r) r.platform = bucket g r.platform ++ [r] := by
  induction g with
  | nil =>
    show bucket [(r.platform, [r])] r.platform = bucket [] r.platform ++ [r]
    rw [bucket_cons_pos _ _ rfl]
    rfl
  | cons kv rest ih =>
    obtain ⟨k, xs⟩ := kv
    by_cases hk : k = r.platform
    · have hstep : addToGroup ((k, xs) :: rest) r = (k, xs ++ [r]) :: rest := by
        simp [addToGroup, hk]
      rw [hstep, bucket_cons_pos _ _ hk, bucket_cons_pos _ _ hk]
    · have hstep : addToGroup ((k, xs) :: rest) r = (k, xs) :: addToGroup rest r := by
        simp [addToGroup, hk]
      rw [hstep, bucket_cons_neg _ _ hk, bucket_cons_neg _ _ hk, ih]

lemma bucket_addToGroup_ne (g : List (String × List NormRec)) (r : NormRec) {k : String}
    (hk : ¬ k = r.platform) :
    bucket (addToGroup g r) k = bucket g k := by
  induction g with
  | nil =>
    show bucket [(r.platform, [r])] k = bucket [] k
    rw [bucket_cons_neg _ _ (fun h => hk h.symm)]
  | cons kv rest ih =>
    obtain ⟨k', xs⟩ := kv
    by_cases hk' : k' = r.platform
    · have hstep : addToGroup ((k', xs) :: rest) r = (k', xs ++ [r]) :: rest := by
        simp [addToGroup, hk']
      rw [hstep, bucket_cons_neg _ _ (fun h => hk (h.symm.trans hk')),
        bucket_cons_neg _ _ (fun h => hk (h.symm.trans hk'))]
    · have hstep : addToGroup ((k', xs) :: rest) r = (k', xs) :: addToGroup rest r := by
        simp [addToGroup, hk']
      by_cases hkk : k' = k
      · rw [hstep, bucket_cons_pos _ _ hkk, bucket_cons_pos _ _ hkk]
      · rw [hstep, bucket_cons_neg _ _ hkk, bucket_cons_neg _ _ hkk, ih]

lemma bucket_foldl (l : List NormRec) :
    ∀ g k, bucket (l.foldl addToGroup g) k =
      bucket g k ++ l.filter (fun r => r.platform == k) := by
  induction l with
  | nil => intro g k; simp
  | cons r t ih =>
    intro g k
    rw [List.foldl_cons, ih]
    by_cases hk : k = r.platform
    · subst hk
      rw [bucket_addToGroup_same, List.filter_cons_of_pos (by simp)]
      simp
    · rw [bucket_addToGroup_ne _ _ hk,
        List.filter_cons_of_neg (by simp; exact fun h => hk h.symm)]

/-- The keys of the grouped list are pairwise distinct. -/
def keysDistinct (g : List (String × List NormRec)) : Prop :=
  g.Pairwise (fun a b => a.1 ≠ b.1)

lemma addToGroup_keys (g : List (String × List NormRec)) (r : NormRec) :
    ∀ kv ∈ addToGroup g r, kv.1 ∈ g.map Prod.fst ∨ kv.1 = r.platform := by
  induction g with
  | nil =>
    intro kv hkv
    simp only [addToGroup, List.mem_singleton] at hkv
    right
    rw [hkv]
  | cons kv' rest ih =>
    obtain ⟨k, xs⟩ := kv'
    intro kv hkv
    by_cases hk : k = r.platform
    · have hstep : addToGroup ((k, xs) :: rest) r = (k, xs ++ [r]) :: rest := by
        simp [addToGroup, hk]
      rw [hstep] at hkv
      rcases List.mem_cons.mp hkv with rfl | hmem
      · left; exact List.mem_cons_self _ _
      · left; exact List.mem_cons_of_mem _ (List.mem_map_of_mem Prod.fst hmem)
    · have hstep : addToGroup ((k, xs) :: rest) r = (k, xs) :: addToGroup rest r := by
        simp [addToGroup, hk]
      rw [hstep] at hkv
      rcases List.mem_cons.mp hkv with rfl | hmem
      · left; exact List.mem_cons_self _ _
      · rcases ih kv hmem with hin | heq
        · left; exact List.mem_cons_of_mem _ hin
        · right; exact heq

lemma keysDistinct_addToGroup (g : List (String × List NormRec)) (r : NormRec)
    (h : keysDistinct g) : keysDistinct (addToGroup g r) := by
  induction g with
  | nil => exact List.pairwise_singleton _ _
  | cons kv rest ih =>
    obtain ⟨k, xs⟩ := kv
    obtain ⟨hhead, htail⟩ := List.pairwise_cons.mp h
    by_cases hk : k = r.platform
    · have hstep : addToGroup ((k, xs) :: rest) r = (k, xs ++ [r]) :: rest := by
        simp [addToGroup, hk]
      rw [hstep]
      exact List.pairwise_cons.mpr ⟨fun b hb => hhead b hb, htail⟩
    · have hstep : addToGroup ((k, xs) :: rest) r = (k, xs) :: addToGroup rest r := by
        simp [addToGroup, hk]
      rw [hstep]
      refine List.pairwise_cons.mpr ⟨?_, ih htail⟩
      intro kv' hkv'
      rcases addToGroup_keys rest r kv' hkv' with hin | heq
      · obtain ⟨b, hb, hb1⟩ := List.mem_map.mp hin
        rw [← hb1]
        exact hhead b hb
      · rw [heq]
        exact hk

lemma keysDistinct_foldl (l : List NormRec) :
    ∀ g, keysDistinct g → keysDistinct (l.foldl addToGroup g) := by
  induction l with
  | nil => intro g h; exact h
  | cons r t ih => intro g h; exact ih _ (keysDistinct_addToGroup g r h)

lemma bucket_of_mem : ∀ g : List (String × List NormRec), keysDistinct g →
    ∀ p ys, (p, ys) ∈ g → bucket g p = ys := by
  intro g
  induction g with
  | nil => intro _ p ys h; simp at h
  | cons kv rest ih =>
    intro hd p ys hmem
    obtain ⟨hhead, htail⟩ := List.pairwise_cons.mp hd
    rcases List.mem_cons.mp hmem with heq | hmem'
    · rw [← heq, bucket_cons_pos _ _ rfl]
    · have hne : ¬ kv.1 = p := hhead (p, ys) hmem'
      rw [bucket_cons_neg _ _ hne]
      exact ih htail p ys hmem'

/-! ### Theorem for C6 -/

/-- C6: output platform keys are pairwise ordered with numeric labels in
ascending numeric order before all non-numeric labels (those in lexicographic
order); each bucket lists exactly the normalized records of that platform in
input order; and the labels ["-", "2", "10", "1"] come out as
["1", "2", "10", "-"]. -/
theorem c6_platform_sort_order (now : Int) (recs : List RawRec) :
    ((get_train_departures now recs).map Prod.fst).Pairwise platKeyLE ∧
    (∀ p ys, (p, ys) ∈ get_train_departures now recs →
      ys = (recs.map (normalizeRec now)).filter (fun r => r.platform == p)) ∧
    (get_train_departures 0
        [⟨"", "", "-", "Nowhere"⟩, ⟨"", "", "2", "Nowhere"⟩,
          ⟨"", "", "10", "Nowhere"⟩, ⟨"", "", "1", "Nowhere"⟩]).map Prod.fst =
      ["1", "2", "10", "-"] := by
  refine ⟨?_, ?_, ?_⟩
  · exact List.Pairwise.map Prod.fst (fun a b h => h)
      (List.sorted_insertionSort pairPlatLE _)
  · intro p ys hmem
    have hperm := List.perm_insertionSort pairPlatLE
      (groupByPlatform (recs.map (normalizeRec now)))
    have hmem' : (p, ys) ∈ groupByPlatform (recs.map (normalizeRec now)) :=
      hperm.mem_iff.mp hmem
    have hdist : keysDistinct (groupByPlatform (recs.map (normalizeRec now))) :=
      keysDistinct_foldl (recs.map (normalizeRec now)) [] List.Pairwise.nil
    have hb := bucket_of_mem _ hdist p ys hmem'
    rw [← hb, groupByPlatform, bucket_foldl]
    rfl
  · decide

theorem c6_platform_sort_order_witness :
    [normalizeRec 0 ⟨"08:00", "", "3", "X"⟩] =
      (([⟨"08:00", "", "3", "X"⟩] : List RawRec).map (normalizeRec 0)).filter
        (fun r => r.platform == "3") :=
  (c6_platform_sort_order 0 [⟨"08:00", "", "3", "X"⟩]).2.1 "3"
    [normalizeRec 0 ⟨"08:00", "", "3", "X"⟩] (by decide)

/-! ### Severity sort (`app.py`, `_normalize_tubes` lines 102-105) -/

/-- A normalized tube-status record as appended by `_normalize_tubes`. -/
structure TubeRec where
  name : String
  status : String
  severity : String
  color : String
  reason : String
deriving DecidableEq

/-- The sort key `order.get(x.get("severity", "good"), 2)` with
`order = {"major": 0, "warn": 1, "good": 2}`. -/
def severityRank (r : TubeRec) : Nat :=
  if r.severity = "major" then 0 else if r.severity = "warn" then 1 else 2

/-- The comparison used by the (stable) `list.sort`. -/
def sevLE (a b : TubeRec) : Prop := severityRank a ≤ severityRank b

instance sevLE.decRel : DecidableRel sevLE :=
  fun a b => inferInstanceAs (Decidable (severityRank a ≤ severityRank b))

instance sevLE.isTotal : IsTotal TubeRec sevLE := ⟨fun _ _ => Nat.le_total _ _⟩

instance sevLE.isTrans : IsTrans TubeRec sevLE := ⟨fun _ _ _ => Nat.le_trans⟩

/-- `out.sort(key=lambda x: order.get(...))`: Python's sort is stable, so it
is modelled by (stable) insertion sort. -/
def sortBySeverity (l : List TubeRec) : List TubeRec :=
  List.insertionSort sevLE l

lemma filter_rank_orderedInsert (v : Nat) (a : TubeRec) (l : List TubeRec) :
    (List.orderedInsert sevLE a l).filter (fun x => severityRank x == v) =
      if severityRank a = v then
        a :: l.filter (fun x => severityRank x == v)
      else l.filter (fun x => severityRank x == v) := by
  induction l with
  | nil =>
    by_cases hv : severityRank a = v
    · simp [List.orderedInsert, List.filter, hv]
    · have hb : (severityRank a == v) = false := by simp [hv]
      simp [List.orderedInsert, List.filter, hv, hb]
  | cons b t ih =>
    by_cases hr : sevLE a b
    · rw [List.orderedInsert, if_pos hr]
      by_cases hv : severityRank a = v
      · have hb : (severityRank a == v) = true := by simp [hv]
        simp [List.filter_cons, hv, hb]
      · have hb : (severityRank a == v) = false := by simp [hv]
        simp [List.filter_cons, hv, hb]
    · rw [List.orderedInsert, if_neg hr]
      have hlt : severityRank b < severityRank a := Nat.lt_of_not_le hr
      by_cases hv : severityRank a = v
      · have hbv : ¬ severityRank b = v := by omega
        rw [List.filter_cons_of_neg (by simp [hbv]), ih, if_pos hv,
          List.filter_cons_of_neg (by simp [hbv]), if_pos hv]
      · by_cases hbv : severityRank b = v
        · rw [List.filter_cons_of_pos (by simp [hbv]), ih, if_neg hv,
            List.filter_cons_of_pos (by simp [hbv]), if_neg hv]
        · rw [List.filter_cons_of_neg (by simp [hbv]), ih, if_neg hv,
            List.filter_cons_of_neg (by simp [hbv]), if_neg hv]

lemma filter_rank_sortBySeverity (v : Nat) (l : List TubeRec) :
    (sortBySeverity l).filter (fun x => severityRank x == v) =
      l.filter (fun x => severityRank x == v) := by
  induction l with
  | nil => rfl
  | cons a t ih =>
    have hstep : sortBySeverity (a :: t) =
        List.orderedInsert sevLE a (sortBySeverity t) := rfl
    rw [hstep, filter_rank_orderedInsert]
    by_cases hv : severityRank a = v
    · rw [if_pos hv, ih, List.filter_cons_of_pos (by simp [hv])]
    · rw [if_neg hv, ih, List.filter_cons_of_neg (by simp [hv])]

/-- C9: the normalized status list is sorted by severity tier (major, then
warn, then good); records of equal severity keep their relative input order
(the filtered sub-list at each tier is unchanged); consequently re-sorting an
already-sorted list returns it unchanged. -/
theorem c9_severity_sort_stable_idempotent (l : List TubeRec) :
    (sortBySeverity l).Pairwise sevLE ∧
    (∀ v : Nat, (sortBySeverity l).filter (fun x => severityRank x == v) =
      l.filter (fun x => severityRank x == v)) ∧
    sortBySeverity (sortBySeverity l) = sortBySeverity l :=
  ⟨List.sorted_insertionSort sevLE l,
    fun v => filter_rank_sortBySeverity v l,
    List.Sorted.insertionSort_eq (List.sorted_insertionSort sevLE l)⟩

/-! ### Weather-icon classification (`weather_forecast.py`, `classify_weather`) -/

/-- The emoji icons returned by `classify_weather`. -/
inductive Icon where
  | sun        -- code 0
  | suncloud   -- the clear-ish default
  | partly
  | overcast
  | fog
  | drizzle
  | rainy
  | snow
  | thunder
deriving DecidableEq

/-- Python truthiness test `cloud and cloud > threshold`. -/
def cloudExceeds (cloud : Option ℚ) (threshold : ℚ) : Bool :=
  match cloud with
  | none => false
  | some c => decide (¬ c = 0 ∧ threshold < c)

/-- The `code is None` fallback of `classify_weather` (lines 45-56):
cloud-cover and rain-intensity thresholds. -/
def fallbackClassify (cloud : Option ℚ) (rain_mm : ℚ) : Icon :=
  if 5 < rain_mm then Icon.thunder
  else if (1 / 2 : ℚ) < rain_mm then Icon.rainy
  else if cloudExceeds cloud 85 then Icon.overcast
  else if cloudExceeds cloud 50 then Icon.partly
  else Icon.suncloud

/-- `classify_weather(code, cloud, rain_mm)` (lines 43-79). -/
def classify_weather (code : Option Int) (cloud : Option ℚ) (rain_mm : ℚ) : Icon :=
  match code with
  | none => fallbackClassify cloud rain_mm
  | some c =>
    if c = 0 then Icon.sun
    else if c = 1 ∨ c = 2 ∨ c = 3 then
      if cloudExceeds cloud 80 then Icon.overcast
      else if cloudExceeds cloud 50 then Icon.partly
      else Icon.suncloud
    else if c = 45 ∨ c = 48 then Icon.fog
    else if 51 ≤ c ∧ c ≤ 67 then Icon.drizzle
    else if 71 ≤ c ∧ c ≤ 77 then Icon.snow
    else if 80 ≤ c ∧ c ≤ 82 then Icon.rainy
    else if 95 ≤ c ∧ c ≤ 99 then Icon.thunder
    else Icon.suncloud

/-- The numeric codes covered by the primary range mapping. -/
def isRecognizedCode (c : Int) : Prop :=
  c = 0 ∨ c = 1 ∨ c = 2 ∨ c = 3 ∨ c = 45 ∨ c = 48 ∨ (51 ≤ c ∧ c ≤ 67) ∨
    (71 ≤ c ∧ c ≤ 77) ∨ (80 ≤ c ∧ c ≤ 82) ∨ (95 ≤ c ∧ c ≤ 99)

instance (c : Int) : Decidable (isRecognizedCode c) := by
  unfold isRecognizedCode
  infer_instance

/-- C7 (counterexample): code 42 is not in any recognized range, yet the code
returns the clear-ish default for it instead of falling back to the
cloud/rain thresholds, which would give a thunderstorm icon at 10 mm rain. -/
theorem c7_counterexample :
    ¬ isRecognizedCode 42 ∧
    classify_weather (some 42) none 10 = Icon.suncloud ∧
    fallbackClassify none 10 = Icon.thunder ∧
    classify_weather (some 42) none 10 ≠ fallbackClassify none 10 := by
  refine ⟨by decide, ?_, ?_, ?_⟩
  · rw [classify_weather]
    norm_num
  · rw [fallbackClassify]
    norm_num
  · rw [classify_weather, fallbackClassify]
    norm_num
    decide

/-- C7 (amended): an absent code falls back to the cloud-cover and
rain-intensity thresholds; a present but unrecognized code yields the
clear-ish default icon; recognized codes map through the fixed ranges:
0 is clear, 1-3 select overcast / partly-cloudy / clear-ish by the cloud
thresholds, 45/48 fog, 51-67 drizzle, 71-77 snow, 80-82 rain, 95-99
thunderstorm. -/
theorem c7_icon_classification (cloud : Option ℚ) (rain_mm : ℚ) (code : Int) :
    classify_weather none cloud rain_mm = fallbackClassify cloud rain_mm ∧
    (¬ isRecognizedCode code →
      classify_weather (some code) cloud rain_mm = Icon.suncloud) ∧
    (classify_weather (some 0) cloud rain_mm = Icon.sun) ∧
    (code = 45 ∨ code = 48 → classify_weather (some code) cloud rain_mm = Icon.fog) ∧
    (51 ≤ code ∧ code ≤ 67 →
      classify_weather (some code) cloud rain_mm = Icon.drizzle) ∧
    (71 ≤ code ∧ code ≤ 77 → classify_weather (some code) cloud rain_mm = Icon.snow) ∧
    (80 ≤ code ∧ code ≤ 82 → classify_weather (some code) cloud rain_mm = Icon.rainy) ∧
    (95 ≤ code ∧ code ≤ 99 →
      classify_weather (some code) cloud rain_mm = Icon.thunder) ∧
    (code = 1 ∨ code = 2 ∨ code = 3 →
      classify_weather (some code) cloud rain_mm =
        (if cloudExceeds cloud 80 then Icon.overcast
         else if cloudExceeds cloud 50 then Icon.partly
         else Icon.suncloud)) := by
  refine ⟨rfl, ?_, ?_, ?_, ?_, ?_, ?_, ?_, ?_⟩
  · intro h
    rw [isRecognizedCode] at h
    push_neg at h
    obtain ⟨h0, h1, h2, h3, h45, h48, hA, hB, hC, hD⟩ := h
    rw [classify_weather, if_neg h0, if_neg (by tauto), if_neg (by tauto),
      if_neg (by omega), if_neg (by omega), if_neg (by omega), if_neg (by omega)]
  · rw [classify_weather, if_pos rfl]
  · intro hc
    rw [classify_weather, if_neg (by omega), if_neg (by omega), if_pos hc]
  · intro hc
    rw [classify_weather, if_neg (by omega), if_neg (by omega), if_neg (by omega),
      if_pos hc]
  · intro hc
    rw [classify_weather, if_neg (by omega), if_neg (by omega), if_neg (by omega),
      if_neg (by omega), if_pos hc]
  · intro hc
    rw [classify_weather, if_neg (by omega), if_neg (by omega), if_neg (by omega),
      if_neg (by omega), if_neg (by omega), if_pos hc]
  · intro hc
    rw [classify_weather, if_neg (by omega), if_neg (by omega), if_neg (by omega),
      if_neg (by omega), if_neg (by omega), if_neg (by omega), if_pos hc]
  · intro hc
    rw [classify_weather, if_neg (by omega), if_pos hc]

theorem c7_icon_classification_witness :
    classify_weather (some 100) none 10 = Icon.suncloud ∧
    classify_weather (some 48) none 10 = Icon.fog ∧
    classify_weather (some 2) (some 90) 0 = Icon.overcast := by
  refine ⟨(c7_icon_classification none 10 100).2.1 (by decide),
    (c7_icon_classification none 10 48).2.2.2.1 (Or.inr rfl), ?_⟩
  have hcl : cloudExceeds (some 90) 80 = true := by
    show decide (¬ (90 : ℚ) = 0 ∧ (80 : ℚ) < 90) = true
    exact decide_eq_true (by norm_num)
  rw [(c7_icon_classification (some 90) 0 2).2.2.2.2.2.2.2.2 (Or.inr (Or.inl rfl)),
    if_pos hcl]

/-! ### Forecast segment averaging (`weather_forecast.py`, `segment_avg` /
`get_todays_weather`) -/

/-- `[v for t, v in zip(times, values) if start <= t.hour < end]`; a time is
represented by its hour-of-day. -/
def segmentSamples (times : List Nat) (values : List ℚ) (s e : Nat) : List ℚ :=
  ((times.zip values).filter (fun tv => decide (s ≤ tv.1 ∧ tv.1 < e))).map Prod.snd

/-- `segment_avg`: `sum(relevant) / len(relevant) if relevant else None`. -/
def segment_avg (times : List Nat) (values : List ℚ) (s e : Nat) : Option ℚ :=
  if segmentSamples times values s e = [] then none
  else
    some ((segmentSamples times values s e).sum /
      (segmentSamples times values s e).length)

/-- `Rat.floor` agrees with the mathematical floor. -/
lemma ratFloor_eq_intFloor (q : ℚ) : Rat.floor q = ⌊q⌋ := by
  rw [Rat.floor_def' q, ← Rat.floor_def]

/-- Python 3 `round(x)` rounds half to even (banker's rounding). -/
def roundHalfEven (q : ℚ) : Int :=
  if q - Rat.floor q < 1 / 2 then Rat.floor q
  else if (1 / 2 : ℚ) < q - Rat.floor q then Rat.floor q + 1
  else if Rat.floor q % 2 = 0 then Rat.floor q else Rat.floor q + 1

/-- Python `round(x, 1)`. -/
def pyRound1 (q : ℚ) : ℚ := (roundHalfEven (q * 10) : ℚ) / 10

/-- Python `x or 0` on an optional number (`None` and `0.0` falsy). -/
def pyOrZero (a : Option ℚ) : ℚ :=
  match a with
  | none => 0
  | some v => if v = 0 then 0 else v

/-- The `rain_probability` segment field: `round(rain_prob or 0, 1)`. -/
def segRainProbability (times : List Nat) (values : List ℚ) (s e : Nat) : ℚ :=
  pyRound1 (pyOrZero (segment_avg times values s e))

lemma roundHalfEven_zero : roundHalfEven 0 = 0 := by
  have h0 : Rat.floor 0 = 0 := by
    rw [ratFloor_eq_intFloor]
    exact Int.floor_zero
  rw [roundHalfEven, h0]
  norm_num

lemma pyRound1_zero : pyRound1 0 = 0 := by
  rw [pyRound1, show ((0 : ℚ) * 10) = 0 from by norm_num, roundHalfEven_zero]
  norm_num

/-- C8: a segment field averages exactly the hourly samples whose hour lies in
the half-open interval `[s, e)`; an empty segment yields `None` (rendered as
the zero field) instead of failing; and the samples 10, 20, 30 at hours 7, 9,
10 of the morning segment (6, 11) give a rain probability of 20.0. -/
theorem c8_segment_mean (times : List Nat) (values : List ℚ) (s e : Nat) :
    (segmentSamples times values s e = [] →
      segment_avg times values s e = none ∧
      segRainProbability times values s e = 0) ∧
    (segmentSamples times values s e ≠ [] →
      segment_avg times values s e =
        some ((segmentSamples times values s e).sum /
          (segmentSamples times values s e).length)) ∧
    segRainProbability [7, 9, 10] [10, 20, 30] 6 11 = 20 := by
  refine ⟨?_, ?_, ?_⟩
  · intro h
    have hnone : segment_avg times values s e = none := by
      rw [segment_avg, if_pos h]
    refine ⟨hnone, ?_⟩
    rw [segRainProbability, hnone]
    show pyRound1 0 = 0
    exact pyRound1_zero
  · intro h
    rw [segment_avg, if_neg h]
  · have hsamp : segmentSamples [7, 9, 10] [10, 20, 30] 6 11 = [10, 20, 30] := by
      simp [segmentSamples]
    have havg : segment_avg [7, 9, 10] [10, 20, 30] 6 11 = some 20 := by
      rw [segment_avg, hsamp, if_neg (by simp)]
      norm_num
    rw [segRainProbability, havg]
    show pyRound1 (if (20 : ℚ) = 0 then 0 else 20) = 20
    rw [if_neg (by norm_num), pyRound1]
    have hfl : Rat.floor ((20 : ℚ) * 10) = 200 := by
      rw [ratFloor_eq_intFloor, show ((20 : ℚ) * 10) = ((200 : Int) : ℚ) from by norm_num,
        Int.floor_intCast]
    rw [roundHalfEven, hfl, if_pos (by norm_num)]
    norm_num

theorem c8_segment_mean_witness :
    (segment_avg [] [] 0 1 = none ∧ segRainProbability [] [] 0 1 = 0) ∧
    segment_avg [3] [5] 3 4 =
      some ((segmentSamples [3] [5] 3 4).sum / (segmentSamples [3] [5] 3 4).length) :=
  ⟨(c8_segment_mean [] [] 0 1).1 rfl,
    (c8_segment_mean [3] [5] 3 4).2.1 (by simp [segmentSamples])⟩

end DeparturesBoard
